import Mathlib

/-!
Verification of the `alog` asynchronous logging package against its design
specification.  The Go source (`logger.go` plus the field-logger file) is
shallowly embedded: Go maps (`Fields`) become association lists with
first-match lookup and replace-or-append update; Go map references become
indices into an explicit heap (`List Fields`), since the JSON encoder
mutates the map held by an entry in place; machine integers (`Level` is a
Go `int`) become `Int`; the external formatting collaborators
(`time.Time.Format`, `fmt.Sprintf`) are passed in as explicit function
parameters (`FmtOps`), while `fmt.Sprint` and `fmt.Sprintln` are modelled
concretely for string and integer operands, following Go's documented
rules (Sprint separates operands by a space only when neither is a string;
Sprintln always separates by a space and appends a newline).
-/

namespace Alog

/-- A Go `interface\x7b\x7d` value as it appears in log arguments and field
values: a string, an integer, an error value (carrying its message), or an
unencodable value such as a function or channel, which `json.Marshal`
rejects. -/
inductive GoVal where
  | vstr (s : String)
  | vint (n : Int)
  | verr (s : String)
  | vfunc (tag : Nat)
deriving DecidableEq

/-- Is the value a Go string?  (`fmt.Sprint` omits the separating space
next to string operands.) -/
def GoVal.isStr : GoVal → Bool
  | .vstr _ => true
  | _ => false

/-- Is the value an error value?  (`writeJSON` stringifies those.) -/
def GoVal.isErr : GoVal → Bool
  | .verr _ => true
  | _ => false

/-- The default rendering of one operand, as `fmt.Sprint` renders it: a
string renders as itself, an integer in decimal, an error by its message,
a function value by an opaque pointer-like token. -/
def goValStr : GoVal → String
  | .vstr s => s
  | .vint n => toString n
  | .verr s => s
  | .vfunc t => "0x" ++ toString t

/-- Model of `fmt.Sprint`: operands concatenated, a single space inserted between
two adjacent operands only when neither is a string. -/
def sprint : List GoVal → String
  | [] => ""
  | [v] => goValStr v
  | v :: w :: rest =>
    goValStr v ++ (if v.isStr || w.isStr then "" else " ") ++ sprint (w :: rest)

/-- Model of `fmt.Sprintln`: operands separated by single spaces (always), with a
trailing newline. -/
def sprintln (vs : List GoVal) : String :=
  String.intercalate " " (vs.map goValStr) ++ "\n"

/-- External formatting collaborators: `fmt.Sprintf` (template rendering)
and `time.Time.Format` (timestamp rendering per layout), abstracted per
the specification's scope section. -/
structure FmtOps where
  spf : String → List GoVal → String
  fmtTime : Int → String → String

/-- Go `type Fields map[string]interface\x7b\x7d`, embedded as an association
list; the list order stands in for the map's iteration order. -/
abbrev Fields : Type := List (String × GoVal)

/-- Go map lookup `m[k]`: the entry for `k`, if any (first match). -/
def fget : Fields → String → Option GoVal
  | [], _ => none
  | p :: rest, k => if p.1 = k then some p.2 else fget rest k

/-- Go map assignment `m[k] = v`: replace the entry for `k` in place if
present, otherwise add a new entry. -/
def fset : Fields → String → GoVal → Fields
  | [], k, v => [(k, v)]
  | p :: rest, k, v => if p.1 = k then (k, v) :: rest else p :: fset rest k v

/-- The `writeJSON` loop `for k, v := range ent.fields \x7b if err, ok :=
v.(error); ok \x7b ent.fields[k] = err.Error() \x7d \x7d`: every
error-typed value is replaced by its message string. -/
def convertErrors (m : Fields) : Fields :=
  m.map (fun p => match p.2 with
    | .verr s => (p.1, GoVal.vstr s)
    | _ => p)

/-- The copy loop `for k, v := range src \x7b dst[k] = v \x7d` used by
`fieldLogger.WithFields`. -/
def mapCopyInto (dst : Fields) (src : Fields) : Fields :=
  src.foldl (fun m p => fset m p.1 p.2) dst

/-- Model of `fieldLogger.WithFields`: allocate a fresh map, copy the existing
fields into it, then overlay the added fields (additions shadow existing
keys). -/
def withFieldsMerge (existing additions : Fields) : Fields :=
  mapCopyInto (mapCopyInto [] existing) additions

/-! ### Severity levels

Go declares `type Level int` with constants `NoLevel = 0` through
`DebugLevel = 6`; we keep the numeric encoding on `Int`. -/

def NoLevel : Int := 0
def PanicLevel : Int := 1
def FatalLevel : Int := 2
def ErrorLevel : Int := 3
def WarnLevel : Int := 4
def InfoLevel : Int := 5
def DebugLevel : Int := 6

/-- Go array indexing `xs[i]` for `i` of type `int`: out-of-range indices
(negative or past the end) panic at runtime, modelled as `none`. -/
def goIndex (xs : List String) (i : Int) : Option String :=
  if i < 0 then none else xs.get? i.toNat

/-- Source `var levelNames = [DebugLevel + 1]string\x7b"", "panic", "fatal",
"error", "warn", "info", "debug"\x7d`. -/
def levelNames : List String :=
  ["", "panic", "fatal", "error", "warn", "info", "debug"]

/-- Model of `func (lvl Level) String() string \x7b return levelNames[int(lvl)]
\x7d` — `none` models the index-out-of-range panic for a `Level` value
outside the array bounds. -/
def levelString (lvl : Int) : Option String :=
  goIndex levelNames lvl

/-- Source `var levelNamesText = [DebugLevel + 1]string\x7b"", " PANIC ",
" FATAL ", " ERROR ", " WARN ", " INFO ", " DEBUG "\x7d`. -/
def levelNamesText : List String :=
  ["", " PANIC ", " FATAL ", " ERROR ", " WARN ", " INFO ", " DEBUG "]

/-- The expression `ent.level.String()` as used by `writeJSON`; every entry the package
constructs carries a level in `[0, 6]`, where the lookup succeeds, so the
default only covers the unreachable out-of-range case. -/
def levelStringD (lvl : Int) : String :=
  (levelString lvl).getD ""

/-- The expression `levelNamesText[int(ent.level)]` as used by `writeText`; same remark
about the `[0, 6]` range as for `levelStringD`. -/
def levelLabelText (lvl : Int) : String :=
  (goIndex levelNamesText lvl).getD ""

/-! ### Engine configuration -/

def defaultTimeLayout : String := "Jan 02 15:04:05"

/-- Model of `strings.TrimSpace`, modelled over the character list: leading and
trailing whitespace removed. -/
def trimSpace (s : String) : String :=
  String.mk (((s.data.dropWhile Char.isWhitespace).reverse.dropWhile
    Char.isWhitespace).reverse)

/-- The layout normalization in `newLogger`: an empty layout selects the
default, otherwise the layout is trimmed (so an all-whitespace layout
disables timestamps). -/
def normalizeLayout (timeLayout : String) : String :=
  if timeLayout = "" then defaultTimeLayout else trimSpace timeLayout

/-- The threshold clamping in `newLogger`: `if level < NoLevel \x7b level
= NoLevel \x7d else if level > DebugLevel \x7b level = DebugLevel \x7d`. -/
def clampLevel (level : Int) : Int :=
  if level < NoLevel then NoLevel
  else if level > DebugLevel then DebugLevel
  else level

/-- The immutable-after-construction engine configuration: clamped
severity threshold, normalized timestamp layout, line prefix (text
encoder only), and chosen encoder variant (`json = true` selects
`writeJSON`, otherwise `writeText`). -/
structure Config where
  level : Int
  tsLayout : String
  pfx : String
  json : Bool
deriving DecidableEq

/-- Configuration built by `NewText(out, level, timeLayout, prefix)`: `newLogger` clamping and
layout normalization, text encoder, with the given line prefix. -/
def NewTextCfg (level : Int) (timeLayout pfx : String) : Config :=
  { level := clampLevel level
    tsLayout := normalizeLayout timeLayout
    pfx := pfx
    json := false }

/-- Configuration built by `NewJSON(out, level, timeLayout)`: `newLogger` clamping and layout
normalization, JSON encoder, no line prefix. -/
def NewJSONCfg (level : Int) (timeLayout : String) : Config :=
  { level := clampLevel level
    tsLayout := normalizeLayout timeLayout
    pfx := ""
    json := true }

/-! ### Entries -/

/-- One pending log entry, mirroring the Go `entry` struct.  `ts` is the
abstract time point captured at call time; `fields` is a Go map
REFERENCE — an index into the engine-state heap — because
`fieldLogger` passes its own map into the entry without copying
(`fields: f.fields`); `none` models a nil map. -/
structure Entry where
  ts : Int
  level : Int
  format : String
  args : List GoVal
  fields : Option Nat
  ln : Bool
deriving DecidableEq

/-- Entry construction in positional form (timestamp, level, format,
arguments, field-map reference, line mode). -/
def mkEnt (ts lvl : Int) (fm : String) (v : List GoVal) (r : Option Nat)
    (lnm : Bool) : Entry :=
  { ts := ts, level := lvl, format := fm, args := v, fields := r, ln := lnm }

/-- The message-rendering branches shared by `writeText`: a non-empty
format string selects `fmt.Sprintf`; otherwise `ln` entries render via
`fmt.Sprintln` with the final byte (its trailing newline) truncated from
the buffer; otherwise `fmt.Sprint`. -/
def renderTextMsg (ops : FmtOps) (e : Entry) : String :=
  if e.format ≠ "" then ops.spf e.format e.args
  else if e.ln then (sprintln e.args).dropRight 1
  else sprint e.args

/-- The `for k, v := range ent.fields` suffix loop of `writeText`,
appending ` (k=v)` for each field in mapping order, with the value
rendered by `fmt.Sprint`. -/
def fieldsSuffix (f : Fields) : String :=
  f.foldl (fun b p => b ++ " (" ++ p.1 ++ "=" ++ goValStr p.2 ++ ")") ""

/-- Model of `logger.writeText`: the single line written by one `Write` call —
prefix (when non-empty), formatted timestamp (when the layout is
non-empty), the severity label from `levelNamesText` when both the
configured level and the entry level are not `NoLevel` and a single space
otherwise, the rendered message, the field suffix, and a newline.  The
argument `f` is the dereferenced field map of the entry. -/
def writeText (cfg : Config) (ops : FmtOps) (f : Fields) (e : Entry) : String :=
  (if cfg.pfx ≠ "" then cfg.pfx else "")
    ++ (if cfg.tsLayout ≠ "" then ops.fmtTime e.ts cfg.tsLayout else "")
    ++ (if cfg.level ≠ NoLevel ∧ e.level ≠ NoLevel then levelLabelText e.level else " ")
    ++ renderTextMsg ops e
    ++ fieldsSuffix f
    ++ "\n"

/-! ### JSON encoder -/

/-- The repeated reserved-key pattern of `writeJSON`: if the map already
holds `key`, preserve that value under the alias `extKey`, then overwrite
`key` with the computed value. -/
def aliasSet (f : Fields) (key extKey : String) (v : GoVal) : Fields :=
  match fget f key with
  | some w => fset (fset f extKey w) key v
  | none => fset f key v

/-- The field-map mutation performed by `logger.writeJSON` on
`ent.fields` before marshalling: error values stringified, then the
reserved keys `time` (when the layout is non-empty), `level` (when both
the configured and the entry level are not `NoLevel`) and `msg` (always)
written with the alias treatment.  Go's two `msg` branches (format
vs. plain) run identical alias code and differ only in the computed
message, folded here into one conditional value; `writeJSON` renders
plain entries with `fmt.Sprint` regardless of `ln`. -/
def encodeJSONFields (cfg : Config) (ops : FmtOps) (e : Entry) (f0 : Fields) : Fields :=
  let f1 := convertErrors f0
  let f2 := if cfg.tsLayout ≠ "" then
      aliasSet f1 "time" "fields.time" (GoVal.vstr (ops.fmtTime e.ts cfg.tsLayout))
    else f1
  let f3 := if cfg.level ≠ NoLevel ∧ e.level ≠ NoLevel then
      aliasSet f2 "level" "fields.level" (GoVal.vstr (levelStringD e.level))
    else f2
  aliasSet f3 "msg" "fields.msg"
    (GoVal.vstr (if e.format ≠ "" then ops.spf e.format e.args else sprint e.args))

/-- JSON rendering of one field value; `none` models a
`json.UnsupportedTypeError` for function/channel values.  String escaping
is elided (all concrete strings used here are escape-free). -/
def renderJVal : GoVal → Option String
  | .vstr s => some ("\"" ++ s ++ "\"")
  | .vint n => some (toString n)
  | .verr s => some ("\"" ++ s ++ "\"")
  | .vfunc _ => none

/-- Insertion into a lexicographically sorted list of strings. -/
def insertSorted (x : String) : List String → List String
  | [] => [x]
  | y :: ys => if x ≤ y then x :: y :: ys else y :: insertSorted x ys

/-- Lexicographic insertion sort (the key order `encoding/json` uses for
maps). -/
def sortStrings : List String → List String
  | [] => []
  | x :: xs => insertSorted x (sortStrings xs)

/-- Model of `json.Marshal` on a field map: fails iff some value is unencodable;
otherwise one JSON object with the keys in `encoding/json`'s sorted key
order. -/
def marshal (f : Fields) : Option String :=
  let rendered := f.map (fun p => (p.1, renderJVal p.2))
  if rendered.all (fun p => p.2.isSome) then
    some ("\x7b"
      ++ String.intercalate ","
          (sortStrings (rendered.map (fun p => "\"" ++ p.1 ++ "\":" ++ p.2.getD "")))
      ++ "\x7d")
  else none

/-! ### The asynchronous engine -/

/-- Go map dereference for an entry's or scoped logger's map reference:
`none` is a nil map (reads as empty). -/
def deref (h : List Fields) (r : Option Nat) : Fields :=
  match r with
  | none => []
  | some i => (h.get? i).getD []

/-- In-place update of the map a reference points to. -/
def hset (h : List Fields) (i : Nat) (f : Fields) : List Fields :=
  h.set i f

/-- The diagnostic `writeJSON` prints to its fallback channel (standard
output via `fmt.Println`) when marshalling fails; the error detail is
abstracted. -/
def jsonErrMsg : String := "Failed to marshal fields to JSON:"

/-- Model of `logger.writeJSON` as a heap action: dereference the entry's field
map (a nil map becomes a fresh empty one, shared with nobody), apply the
reserved-key mutation IN PLACE (the entry's map reference may be shared
with the scoped logger that produced the entry), then marshal.  Returns
the updated heap, the bytes written to the sink (`none` when marshalling
failed and the entry is dropped), and the fallback diagnostic (`none` on
success; Go never retries). -/
def writeJSONStep (cfg : Config) (ops : FmtOps) (h : List Fields) (e : Entry) :
    List Fields × Option String × Option String :=
  let f1 := encodeJSONFields cfg ops e (deref h e.fields)
  let h1 := match e.fields with
    | none => h
    | some i => hset h i f1
  match marshal f1 with
  | some s => (h1, some (s ++ "\n"), none)
  | none => (h1, none, some jsonErrMsg)

/-- One consumer-loop body: dispatch to the configured `writeFunc`.  The
text encoder reads the entry's fields without mutating them and always
produces one sink write; the JSON encoder is `writeJSONStep`. -/
def writeEntry (cfg : Config) (ops : FmtOps) (h : List Fields) (e : Entry) :
    List Fields × Option String × Option String :=
  if cfg.json then writeJSONStep cfg ops h e
  else (h, some (writeText cfg ops (deref h e.fields) e), none)

/-- Drain a list of entries through the consumer loop in order, threading
the heap; returns the final heap, the sink writes in order, and the
diagnostics in order. -/
def processAll (cfg : Config) (ops : FmtOps) (h : List Fields) :
    List Entry → List Fields × List String × List String
  | [] => (h, [], [])
  | e :: rest =>
    let r1 := writeEntry cfg ops h e
    let r2 := processAll cfg ops r1.1 rest
    (r2.1, r1.2.1.toList ++ r2.2.1, r1.2.2.toList ++ r2.2.2)

/-! ### Producer-side operations -/

/-- Model of `logger.LogableAt`: `if a.level != NoLevel && a.level < level
\x7b return false \x7d; return true`. -/
def LogableAt (cfgLevel : Int) (level : Int) : Bool :=
  if cfgLevel ≠ NoLevel ∧ cfgLevel < level then false else true

/-- Model of `logger.log`: drop the entry before enqueue when `LogableAt` rejects
it, otherwise enqueue a plain-print entry at the given level. -/
def logStep (cfg : Config) (q : List Entry) (fields : Option Nat)
    (level : Int) (ts : Int) (v : List GoVal) : List Entry :=
  if LogableAt cfg.level level then
    q ++ [{ ts := ts, level := level, format := "", args := v, fields := fields, ln := false }]
  else q

/-- Model of `logger.logln`: as `logStep` but the entry is line-mode. -/
def loglnStep (cfg : Config) (q : List Entry) (fields : Option Nat)
    (level : Int) (ts : Int) (v : List GoVal) : List Entry :=
  if LogableAt cfg.level level then
    q ++ [{ ts := ts, level := level, format := "", args := v, fields := fields, ln := true }]
  else q

/-- Model of `logger.logf`: as `logStep` but the entry carries a format string. -/
def logfStep (cfg : Config) (q : List Entry) (fields : Option Nat)
    (level : Int) (ts : Int) (format : String) (v : List GoVal) : List Entry :=
  if LogableAt cfg.level level then
    q ++ [{ ts := ts, level := level, format := format, args := v, fields := fields, ln := false }]
  else q

/-- Model of `logger.Panic` / `fieldLogger.Panic`: log at `PanicLevel`, `Close()`
(drain everything pending synchronously), then `panic(fmt.Sprint(v...))`.
The result pairs the drained engine outcome with the panic payload. -/
def panicCall (cfg : Config) (ops : FmtOps) (h : List Fields) (q : List Entry)
    (fields : Option Nat) (ts : Int) (v : List GoVal) :
    (List Fields × List String × List String) × String :=
  (processAll cfg ops h (logStep cfg q fields PanicLevel ts v), sprint v)

/-- Model of `Panicln`: log a line-mode entry at `PanicLevel`, `Close()`, then
`panic(fmt.Sprint(v...))` — note Sprint, not Sprintln. -/
def paniclnCall (cfg : Config) (ops : FmtOps) (h : List Fields) (q : List Entry)
    (fields : Option Nat) (ts : Int) (v : List GoVal) :
    (List Fields × List String × List String) × String :=
  (processAll cfg ops h (loglnStep cfg q fields PanicLevel ts v), sprint v)

/-- Model of `Panicf`: log a format entry at `PanicLevel`, `Close()`, then
`panic(fmt.Sprintf(format, v...))`. -/
def panicfCall (cfg : Config) (ops : FmtOps) (h : List Fields) (q : List Entry)
    (fields : Option Nat) (ts : Int) (format : String) (v : List GoVal) :
    (List Fields × List String × List String) × String :=
  (processAll cfg ops h (logfStep cfg q fields PanicLevel ts format v), ops.spf format v)

/-! ### Engine state machine

The producer/consumer interaction of `logger.run` and `logger.Close` over
the buffered channel `entChan`: producers append entries while the
channel is open; the single consumer pops in FIFO order and runs the
configured `writeFunc`; `Close` closes the channel (no further sends) and
returns once the consumer has drained the remaining entries and closed
`doneChan`.  The channel's 64-entry capacity only bounds producer
blocking and does not affect delivery, so it is not modelled. -/

structure EngState where
  cfg : Config
  queue : List Entry
  heap : List Fields
  sink : List String
  diag : List String
  closed : Bool
  done : Bool
  enqueued : List Entry
deriving DecidableEq

/-- The engine right after `go a.run()`: empty queue and sink, channel
open, consumer running, over an initial heap of field maps. -/
def initState (cfg : Config) (h0 : List Fields) : EngState :=
  { cfg := cfg, queue := [], heap := h0, sink := [], diag := []
    closed := false, done := false, enqueued := [] }

/-- One interleaving step of the engine.  `enq` is a producer send on the
open channel (`enqueued` is the ghost history of all sends); `consume` is
one consumer-loop iteration; `closeChan` is `close(a.entChan)` inside
`Close()`; `finish` is the consumer observing the closed, drained channel
and closing `doneChan` — `Close()` returns exactly when `done` holds. -/
inductive EngStep (ops : FmtOps) : EngState → EngState → Prop where
  | enq (s t : EngState) (e : Entry) :
      s.closed = false →
      t = { s with queue := s.queue ++ [e], enqueued := s.enqueued ++ [e] } →
      EngStep ops s t
  | consume (s t : EngState) (e : Entry) (rest : List Entry) :
      s.queue = e :: rest →
      t = { s with
              queue := rest
              heap := (writeEntry s.cfg ops s.heap e).1
              sink := s.sink ++ (writeEntry s.cfg ops s.heap e).2.1.toList
              diag := s.diag ++ (writeEntry s.cfg ops s.heap e).2.2.toList } →
      EngStep ops s t
  | closeChan (s t : EngState) :
      s.closed = false →
      t = { s with closed := true } →
      EngStep ops s t
  | finish (s t : EngState) :
      s.closed = true →
      s.queue = [] →
      t = { s with done := true } →
      EngStep ops s t

/-- Reachability along engine steps. -/
def EngReaches (ops : FmtOps) : EngState → EngState → Prop :=
  Relation.ReflTransGen (EngStep ops)

/-! ### Auxiliary definitions used by the statements and proofs -/

/-- First-defined choice on optional values (`a` if present, else `b`). -/
def oget (a b : Option GoVal) : Option GoVal :=
  match a with
  | some v => some v
  | none => b

/-- The keys of a field map are pairwise distinct (true of every Go map,
and of every map this package builds via `fset` from empty). -/
def keysND (m : Fields) : Prop :=
  (m.map Prod.fst).Nodup

/-- The severity label exactly as the specification words it: `" PANIC "`
for `Panic` through `" DEBUG "` for `Debug`. -/
def claimLabel (l : Int) : String :=
  if l = PanicLevel then " PANIC "
  else if l = FatalLevel then " FATAL "
  else if l = ErrorLevel then " ERROR "
  else if l = WarnLevel then " WARN "
  else if l = InfoLevel then " INFO "
  else if l = DebugLevel then " DEBUG "
  else " "

/-- The text line exactly as the specification words it: prefix, then the
formatted timestamp (omitted when the layout is empty), then the padded
severity label when both the configured level and the entry's level are
not `NoLevel` and a single space otherwise, then the rendered message,
then ` (k=v)` for each attached field in mapping order, then a single
trailing newline. -/
def textLineSpec (cfg : Config) (ops : FmtOps) (f : Fields) (e : Entry) : String :=
  cfg.pfx
    ++ (if cfg.tsLayout = "" then "" else ops.fmtTime e.ts cfg.tsLayout)
    ++ (if cfg.level ≠ NoLevel ∧ e.level ≠ NoLevel then claimLabel e.level else " ")
    ++ renderTextMsg ops e
    ++ String.join (f.map (fun p => " (" ++ p.1 ++ "=" ++ goValStr p.2 ++ ")"))
    ++ "\n"

/-- The inductive invariant of the engine state machine: the
configuration is the constructed one; the ghost history splits into a
consumed prefix — whose in-order processing from the initial heap
produced exactly the current heap, sink, and diagnostics — followed by
the current queue; and a finished engine is closed and drained. -/
def EngInv (cfg : Config) (ops : FmtOps) (h0 : List Fields) (s : EngState) : Prop :=
  s.cfg = cfg ∧
  (∃ consumed, s.enqueued = consumed ++ s.queue ∧
    processAll cfg ops h0 consumed = (s.heap, s.sink, s.diag)) ∧
  (s.done = true → s.closed = true ∧ s.queue = [])

/-- A fixed instantiation of the external formatting collaborators, used
to evaluate the model on concrete inputs: `Sprintf` renders the template
followed by the Sprint of the arguments, `Format` renders the layout
itself. -/
def opsA : FmtOps :=
  { spf := fun f vs => f ++ sprint vs
    fmtTime := fun _ layout => layout }

/-! ## Lemmas about field maps -/

theorem fget_fset (m : Fields) (k : String) (v : GoVal) (x : String) :
    fget (fset m k v) x = if x = k then some v else fget m x := by
  induction m with
  | nil =>
    show (if k = x then some v else none) = if x = k then some v else none
    by_cases hx : x = k
    · subst hx; simp
    · rw [if_neg hx, if_neg (fun h : k = x => hx h.symm)]
  | cons p rest ih =>
    by_cases hp : p.1 = k
    · show fget (if p.1 = k then (k, v) :: rest else p :: fset rest k v) x = _
      rw [if_pos hp]
      by_cases hx : x = k
      · subst hx; simp [fget]
      · rw [fget, if_neg (fun h => hx h.symm), if_neg hx, fget,
          if_neg (fun h : p.1 = x => hx (hp ▸ h : k = x).symm)]
    · show fget (if p.1 = k then (k, v) :: rest else p :: fset rest k v) x = _
      rw [if_neg hp]
      by_cases hq : p.1 = x
      · have hxk : ¬ x = k := fun h => hp (by rw [hq, h])
        rw [fget, if_pos hq, if_neg hxk, fget, if_pos hq]
      · rw [fget, if_neg hq, ih]
        by_cases hx : x = k
        · rw [if_pos hx, if_pos hx]
        · rw [if_neg hx, if_neg hx, fget, if_neg hq]

theorem mapCopyInto_nil (m : Fields) : mapCopyInto m [] = m := rfl

theorem mapCopyInto_cons (m : Fields) (p : String × GoVal) (rest : Fields) :
    mapCopyInto m (p :: rest) = mapCopyInto (fset m p.1 p.2) rest := rfl

theorem oget_none_right (a : Option GoVal) : oget a none = a := by
  cases a <;> rfl

theorem oget_assoc (a b c : Option GoVal) :
    oget (oget a b) c = oget a (oget b c) := by
  cases a <;> cases b <;> rfl

theorem fget_mapCopyInto (src : Fields) (m : Fields) (k : String) :
    fget (mapCopyInto m src) k = oget (fget (mapCopyInto [] src) k) (fget m k) := by
  induction src generalizing m with
  | nil => simp [mapCopyInto_nil, fget, oget]
  | cons p rest ih =>
    rw [mapCopyInto_cons, mapCopyInto_cons, ih, ih (fset [] p.1 p.2)]
    cases hA : fget (mapCopyInto [] rest) k with
    | some w => rfl
    | none =>
      show fget (fset m p.1 p.2) k = oget (fget (fset [] p.1 p.2) k) (fget m k)
      rw [fget_fset, fget_fset]
      by_cases hk : k = p.1
      · rw [if_pos hk, if_pos hk]; rfl
      · rw [if_neg hk, if_neg hk]; rfl

theorem fget_not_mem (m : Fields) (k : String) (h : k ∉ m.map Prod.fst) :
    fget m k = none := by
  induction m with
  | nil => rfl
  | cons p rest ih =>
    simp only [List.map_cons, List.mem_cons] at h
    push_neg at h
    have : ¬ p.1 = k := fun hh => h.1 hh.symm
    simp [fget, this, ih h.2]

theorem keys_fset (m : Fields) (k : String) (v : GoVal) :
    (fset m k v).map Prod.fst =
      if k ∈ m.map Prod.fst then m.map Prod.fst else m.map Prod.fst ++ [k] := by
  induction m with
  | nil => simp [fset]
  | cons p rest ih =>
    by_cases hp : p.1 = k
    · simp [fset, hp]
    · have : ¬ k = p.1 := fun h => hp h.symm
      by_cases hk : k ∈ rest.map Prod.fst <;>
        simp [fset, hp, this, hk, ih]

theorem keysND_fset (m : Fields) (k : String) (v : GoVal) (h : keysND m) :
    keysND (fset m k v) := by
  unfold keysND at h ⊢
  rw [keys_fset]
  by_cases hk : k ∈ m.map Prod.fst
  · simpa [hk]
  · rw [if_neg hk, (List.perm_append_singleton k (m.map Prod.fst)).nodup_iff]
    exact List.nodup_cons.mpr ⟨hk, h⟩

theorem keysND_mapCopyInto (src : Fields) (m : Fields) (h : keysND m) :
    keysND (mapCopyInto m src) := by
  induction src generalizing m with
  | nil => simpa [mapCopyInto_nil]
  | cons p rest ih =>
    rw [mapCopyInto_cons]
    exact ih _ (keysND_fset _ _ _ h)

theorem keysND_nil : keysND [] := by simp [keysND]

theorem fget_copy_eq (m : Fields) (h : keysND m) (k : String) :
    fget (mapCopyInto [] m) k = fget m k := by
  induction m with
  | nil => rfl
  | cons p rest ih =>
    have h' : p.1 ∉ rest.map Prod.fst ∧ (rest.map Prod.fst).Nodup := by
      unfold keysND at h
      rw [List.map_cons] at h
      exact List.nodup_cons.mp h
    rw [mapCopyInto_cons, fget_mapCopyInto, ih h'.2]
    show oget (fget rest k) (fget (fset [] p.1 p.2) k) = fget (p :: rest) k
    rw [fget_fset]
    by_cases hk : k = p.1
    · rw [if_pos hk, fget, if_pos hk.symm, hk, fget_not_mem rest _ h'.1]; rfl
    · rw [if_neg hk]
      show oget (fget rest k) none = fget (p :: rest) k
      rw [oget_none_right, fget, if_neg (fun hh : p.1 = k => hk hh.symm)]

theorem fget_convertErrors (m : Fields) (k : String) :
    fget (convertErrors m) k =
      (fget m k).map (fun v => match v with
        | .verr s => GoVal.vstr s
        | w => w) := by
  induction m with
  | nil => rfl
  | cons p rest ih =>
    by_cases hp : p.1 = k
    · cases hv : p.2 <;> simp [convertErrors, fget, hp, hv]
    · cases hv : p.2 <;> simpa [convertErrors, fget, hp, hv] using ih

theorem fget_aliasSet_key (f : Fields) (key extKey : String) (v : GoVal) :
    fget (aliasSet f key extKey v) key = some v := by
  unfold aliasSet
  cases hw : fget f key <;> simp [fget_fset]

theorem fget_aliasSet_ext (f : Fields) (key extKey : String) (v : GoVal)
    (h : ¬ extKey = key) :
    fget (aliasSet f key extKey v) extKey =
      match fget f key with
      | some w => some w
      | none => fget f extKey := by
  unfold aliasSet
  cases hw : fget f key <;> simp [fget_fset, h]

theorem fget_aliasSet_other (f : Fields) (key extKey : String) (v : GoVal)
    (x : String) (h1 : ¬ x = key) (h2 : ¬ x = extKey) :
    fget (aliasSet f key extKey v) x = fget f x := by
  unfold aliasSet
  cases hw : fget f key <;> simp [fget_fset, h1, h2]

/-! ## Lemmas about the consumer loop and the engine invariant -/

theorem processAll_nil (cfg : Config) (ops : FmtOps) (h : List Fields) :
    processAll cfg ops h [] = (h, [], []) := rfl

theorem processAll_cons (cfg : Config) (ops : FmtOps) (h : List Fields)
    (e : Entry) (rest : List Entry) :
    processAll cfg ops h (e :: rest) =
      ((processAll cfg ops (writeEntry cfg ops h e).1 rest).1,
       (writeEntry cfg ops h e).2.1.toList
         ++ (processAll cfg ops (writeEntry cfg ops h e).1 rest).2.1,
       (writeEntry cfg ops h e).2.2.toList
         ++ (processAll cfg ops (writeEntry cfg ops h e).1 rest).2.2) := rfl

theorem processAll_append (cfg : Config) (ops : FmtOps) (h : List Fields)
    (xs ys : List Entry) :
    processAll cfg ops h (xs ++ ys) =
      ((processAll cfg ops (processAll cfg ops h xs).1 ys).1,
       (processAll cfg ops h xs).2.1
         ++ (processAll cfg ops (processAll cfg ops h xs).1 ys).2.1,
       (processAll cfg ops h xs).2.2
         ++ (processAll cfg ops (processAll cfg ops h xs).1 ys).2.2) := by
  induction xs generalizing h with
  | nil => simp [processAll_nil]
  | cons e rest ih =>
    simp only [List.cons_append, processAll_cons, ih, List.append_assoc]

theorem engInv_init (cfg : Config) (ops : FmtOps) (h0 : List Fields) :
    EngInv cfg ops h0 (initState cfg h0) := by
  refine ⟨rfl, ⟨[], by simp [initState], by simp [initState, processAll_nil]⟩, ?_⟩
  intro hd
  simp [initState] at hd

theorem engInv_step (cfg : Config) (ops : FmtOps) (h0 : List Fields)
    (s t : EngState) (hs : EngInv cfg ops h0 s) (hst : EngStep ops s t) :
    EngInv cfg ops h0 t := by
  obtain ⟨hcfg, ⟨consumed, hsplit, hproc⟩, hdone⟩ := hs
  cases hst with
  | enq e hcl ht =>
    subst ht
    refine ⟨hcfg, ⟨consumed, ?_, hproc⟩, ?_⟩
    · simp only [hsplit, List.append_assoc]
    · intro hd
      exact absurd (hdone hd).1 (by simp [hcl])
  | consume e rest hq ht =>
    subst ht
    refine ⟨hcfg, ⟨consumed ++ [e], ?_, ?_⟩, ?_⟩
    · simp only [hsplit, hq, List.append_assoc, List.singleton_append]
    · rw [processAll_append, hproc]
      simp only [hcfg]
      rw [processAll_cons, processAll_nil]
      simp
    · intro hd
      obtain ⟨hc, hq0⟩ := hdone hd
      rw [hq] at hq0
      simp at hq0
  | closeChan hcl ht =>
    subst ht
    exact ⟨hcfg, ⟨consumed, hsplit, hproc⟩, fun hd => ⟨rfl, (hdone hd).2⟩⟩
  | finish hc hq ht =>
    subst ht
    exact ⟨hcfg, ⟨consumed, hsplit, hproc⟩, fun _ => ⟨hc, hq⟩⟩

theorem engInv_reaches (cfg : Config) (ops : FmtOps) (h0 : List Fields)
    (s : EngState) (h : EngReaches ops (initState cfg h0) s) :
    EngInv cfg ops h0 s := by
  unfold EngReaches at h
  induction h with
  | refl => exact engInv_init cfg ops h0
  | tail hab hbc ih => exact engInv_step cfg ops h0 _ _ ih hbc

/-! ## Claim theorems -/

/-- C1: for every configured (hence clamped) threshold and every entry
severity, `LogableAt` returns true iff the threshold is `NoLevel`, or the
severity is `NoLevel`, or the severity's rank is at most the threshold's
rank under `Panic(1) < ... < Debug(6)`; and when it returns false, each
leveled log call (`log`, `logln`, `logf`) leaves the queue unchanged —
nothing is enqueued. -/
theorem logableAt_admits_iff (l lvl : Int) :
    (LogableAt (clampLevel l) lvl = true ↔
      (clampLevel l = NoLevel ∨ lvl = NoLevel ∨ lvl ≤ clampLevel l)) ∧
    (LogableAt (clampLevel l) lvl = false →
      ∀ (cfg : Config) (q : List Entry) (r : Option Nat) (ts : Int)
        (v : List GoVal) (fs : String),
        cfg.level = clampLevel l →
        logStep cfg q r lvl ts v = q ∧ loglnStep cfg q r lvl ts v = q ∧
        logfStep cfg q r lvl ts fs v = q) := by
  have hcl : 0 ≤ clampLevel l := by
    unfold clampLevel NoLevel DebugLevel
    split_ifs <;> omega
  constructor
  · unfold LogableAt NoLevel
    split_ifs with h
    · simp only [Bool.false_eq_true, false_iff]
      push_neg
      exact ⟨h.1, by omega, by omega⟩
    · simp only [true_iff]
      by_cases hT : clampLevel l = 0
      · exact Or.inl hT
      · right; right
        by_contra hlt
        exact h ⟨hT, by omega⟩
  · intro hfalse cfg q r ts v fs hcfg
    unfold logStep loglnStep logfStep
    rw [hcfg, hfalse]
    simp

/-- Witness for C1: threshold `Warn` (4), entry severity `Debug` (6) —
the policy rejects and `log` enqueues nothing. -/
theorem logableAt_admits_iff_witness :
    LogableAt (clampLevel 4) 6 = false ∧
    logStep (NewTextCfg 4 "" "") [] none 6 0 [] = [] := by
  have hfalse : LogableAt (clampLevel 4) 6 = false := by decide
  exact ⟨hfalse,
    ((logableAt_admits_iff 4 6).2 hfalse (NewTextCfg 4 "" "") [] none 0 [] ""
      (by decide)).1⟩

/-- C9: the threshold stored by logger construction is the clamp of the
requested level into `[NoLevel, DebugLevel]`: values below `NoLevel`
become `NoLevel`, values above `DebugLevel` become `DebugLevel`, in-range
values are kept; both constructors clamp identically; and no engine step
ever alters the stored configuration (it is immutable after
construction). -/
theorem newLogger_clamps (l : Int) (layout pfxs : String) (ops : FmtOps) :
    (NoLevel ≤ (NewTextCfg l layout pfxs).level ∧
      (NewTextCfg l layout pfxs).level ≤ DebugLevel) ∧
    (l < NoLevel → (NewTextCfg l layout pfxs).level = NoLevel) ∧
    (DebugLevel < l → (NewTextCfg l layout pfxs).level = DebugLevel) ∧
    (NoLevel ≤ l → l ≤ DebugLevel → (NewTextCfg l layout pfxs).level = l) ∧
    (NewJSONCfg l layout).level = (NewTextCfg l layout pfxs).level ∧
    (∀ s t : EngState, EngStep ops s t → t.cfg = s.cfg) := by
  refine ⟨?_, ?_, ?_, ?_, rfl, ?_⟩
  · show NoLevel ≤ clampLevel l ∧ clampLevel l ≤ DebugLevel
    unfold clampLevel NoLevel DebugLevel
    split_ifs <;> omega
  · intro h
    show clampLevel l = NoLevel
    unfold clampLevel NoLevel DebugLevel at *
    split_ifs <;> omega
  · intro h
    show clampLevel l = DebugLevel
    unfold clampLevel NoLevel DebugLevel at *
    split_ifs <;> omega
  · intro h1 h2
    show clampLevel l = l
    unfold clampLevel NoLevel DebugLevel at *
    split_ifs <;> omega
  · intro s t hst
    cases hst with
    | enq e hcl ht => rw [ht]
    | consume e rest hq ht => rw [ht]
    | closeChan hcl ht => rw [ht]
    | finish hc hq ht => rw [ht]

/-- Witness for C9: a negative requested level is stored as `NoLevel`,
an over-large one as `DebugLevel`. -/
theorem newLogger_clamps_witness :
    (NewTextCfg (-5) "" "").level = NoLevel ∧
    (NewTextCfg 99 "" "").level = DebugLevel :=
  ⟨(newLogger_clamps (-5) "" "" opsA).2.1 (by decide),
   (newLogger_clamps 99 "" "" opsA).2.2.1 (by decide)⟩

/-- C10: `Level.String` is safe exactly on `[NoLevel, DebugLevel]`: each
in-range level yields its lowercase name (empty for `NoLevel`), and any
out-of-range `Level` value — which callers can construct freely, `Level`
being an exported integer type — hits an out-of-bounds array index (a
runtime panic, modelled as `none`). -/
theorem levelString_safe_range (lvl : Int) :
    (lvl < NoLevel ∨ DebugLevel < lvl → levelString lvl = none) ∧
    (levelString NoLevel = some "" ∧
     levelString PanicLevel = some "panic" ∧
     levelString FatalLevel = some "fatal" ∧
     levelString ErrorLevel = some "error" ∧
     levelString WarnLevel = some "warn" ∧
     levelString InfoLevel = some "info" ∧
     levelString DebugLevel = some "debug") := by
  constructor
  · intro h
    unfold levelString goIndex NoLevel DebugLevel at *
    rcases h with h | h
    · rw [if_pos h]
    · rw [if_neg (by omega)]
      refine List.get?_eq_none.mpr ?_
      show levelNames.length ≤ lvl.toNat
      unfold levelNames
      simp only [List.length]
      omega
  · exact ⟨rfl, rfl, rfl, rfl, rfl, rfl, rfl⟩

/-- Witness for C10: `Level(7)` and `Level(-1)` both panic in
`String()`. -/
theorem levelString_safe_range_witness :
    levelString 7 = none ∧ levelString (-1) = none :=
  ⟨(levelString_safe_range 7).1 (by decide),
   (levelString_safe_range (-1)).1 (by decide)⟩

theorem foldl_strcat_shift (l : List String) (b : String) :
    l.foldl (fun r s => r ++ s) b = b ++ l.foldl (fun r s => r ++ s) "" := by
  induction l generalizing b with
  | nil => simp
  | cons x xs ih =>
    show List.foldl _ (b ++ x) xs = b ++ List.foldl _ ("" ++ x) xs
    rw [ih (b ++ x), ih ("" ++ x)]
    simp [String.append_assoc]

theorem foldl_append_shift (g : String × GoVal → String) (f : Fields) (b : String) :
    f.foldl (fun acc p => acc ++ g p) b = b ++ String.join (f.map g) := by
  have hmap : f.foldl (fun acc p => acc ++ g p) b
      = (f.map g).foldl (fun r s => r ++ s) b := (List.foldl_map g _ f b).symm
  rw [hmap, foldl_strcat_shift]
  rfl

theorem fieldsSuffix_eq_join (f : Fields) :
    fieldsSuffix f =
      String.join (f.map (fun p => " (" ++ p.1 ++ "=" ++ goValStr p.2 ++ ")")) := by
  have h := foldl_append_shift (fun p => " (" ++ p.1 ++ "=" ++ goValStr p.2 ++ ")") f ""
  unfold fieldsSuffix
  rw [show (fun (b : String) (p : String × GoVal) =>
        b ++ " (" ++ p.1 ++ "=" ++ goValStr p.2 ++ ")")
      = (fun (b : String) (p : String × GoVal) =>
        b ++ (" (" ++ p.1 ++ "=" ++ goValStr p.2 ++ ")")) from by
    funext b p
    simp [String.append_assoc]]
  rw [h]
  simp

/-- C4: the line the text encoder writes is byte-for-byte the sequence
the specification describes — prefix, formatted timestamp (omitted when
the layout is empty), padded severity label (`" PANIC "` … `" DEBUG "`)
when both the configured level and the entry's level are not `NoLevel`
and a single space otherwise, rendered message, ` (k=v)` per field in
mapping order, one trailing newline.  The entry levels the package
constructs all lie in `[NoLevel, DebugLevel]`, the hypothesis range. -/
theorem writeText_matches_spec (cfg : Config) (ops : FmtOps) (f : Fields)
    (e : Entry) (h0 : NoLevel ≤ e.level) (h6 : e.level ≤ DebugLevel) :
    writeText cfg ops f e = textLineSpec cfg ops f e := by
  have ha : (if cfg.pfx ≠ "" then cfg.pfx else "") = cfg.pfx := by
    by_cases h : cfg.pfx = "" <;> simp [h]
  have hb : (if cfg.tsLayout ≠ "" then ops.fmtTime e.ts cfg.tsLayout else "")
      = (if cfg.tsLayout = "" then "" else ops.fmtTime e.ts cfg.tsLayout) := by
    by_cases h : cfg.tsLayout = "" <;> simp [h]
  have hc : (if cfg.level ≠ NoLevel ∧ e.level ≠ NoLevel
        then levelLabelText e.level else " ")
      = (if cfg.level ≠ NoLevel ∧ e.level ≠ NoLevel
        then claimLabel e.level else " ") := by
    by_cases h : cfg.level ≠ NoLevel ∧ e.level ≠ NoLevel
    · rw [if_pos h, if_pos h]
      have hne := h.2
      unfold NoLevel at hne
      simp only [NoLevel, DebugLevel] at h0 h6
      have henum : e.level = 1 ∨ e.level = 2 ∨ e.level = 3 ∨ e.level = 4 ∨
          e.level = 5 ∨ e.level = 6 := by omega
      rcases henum with h' | h' | h' | h' | h' | h' <;> rw [h'] <;> rfl
    · rw [if_neg h, if_neg h]
  unfold writeText textLineSpec
  rw [ha, hb, hc, fieldsSuffix_eq_join]

/-- Witness for C4: a leveled Warn entry with one field under a prefixed,
timestamped text configuration. -/
theorem writeText_matches_spec_witness :
    writeText (NewTextCfg 6 "x" "pre:") opsA [("foo", GoVal.vstr "bar")]
        { ts := 3, level := 4, format := "", args := [GoVal.vstr "hello"],
          fields := some 0, ln := false }
      = textLineSpec (NewTextCfg 6 "x" "pre:") opsA [("foo", GoVal.vstr "bar")]
        { ts := 3, level := 4, format := "", args := [GoVal.vstr "hello"],
          fields := some 0, ln := false } :=
  writeText_matches_spec _ opsA _ _ (by decide) (by decide)

theorem keysND_withFieldsMerge (a b : Fields) : keysND (withFieldsMerge a b) :=
  keysND_mapCopyInto _ _ (keysND_mapCopyInto _ _ keysND_nil)

/-- C6: `withFields` is associative in effect with last-write-wins
shadowing — for a scoped logger holding fields `f`, deriving with `a` and
then with `b` yields a field map with exactly the same lookups as
deriving once with the merge of `a` and `b` (where `b` shadows `a`); the
operation builds a fresh map and never mutates its inputs, which the
functional embedding makes intrinsic.  Every entry the scoped logger
produces carries its field map, so equal maps mean equal effective field
sets on every produced entry. -/
theorem withFields_assoc (f a b : Fields) (k : String) :
    fget (withFieldsMerge (withFieldsMerge f a) b) k =
      fget (withFieldsMerge f (withFieldsMerge a b)) k := by
  have hnd1 : keysND (withFieldsMerge f a) := keysND_withFieldsMerge f a
  have hnd2 : keysND (withFieldsMerge a b) := keysND_withFieldsMerge a b
  show fget (mapCopyInto (mapCopyInto [] (withFieldsMerge f a)) b) k
      = fget (mapCopyInto (mapCopyInto [] f) (withFieldsMerge a b)) k
  rw [fget_mapCopyInto b, fget_copy_eq _ hnd1 k]
  rw [fget_mapCopyInto (withFieldsMerge a b), fget_copy_eq _ hnd2 k]
  show oget (fget (mapCopyInto [] b) k)
        (fget (mapCopyInto (mapCopyInto [] f) a) k)
      = oget (fget (mapCopyInto (mapCopyInto [] a) b) k)
        (fget (mapCopyInto [] f) k)
  rw [fget_mapCopyInto a, fget_mapCopyInto b (mapCopyInto [] a)]
  rw [oget_assoc]

/-- C5: whenever the field map handed to the JSON encoder already holds a
reserved key the encoder computes for this entry (`time` when timestamps
are rendered, `level` when both the configured and the entry level are
not `NoLevel`, `msg` always), the pre-existing value is preserved under
the `fields.<key>` alias and the reserved key is overwritten with the
computed value.  The hypothesis `v.isErr = false` reflects that the
preserved value is the one present after `writeJSON`'s error-to-string
conversion. -/
theorem writeJSON_reserved_alias (cfg : Config) (ops : FmtOps) (e : Entry)
    (f0 : Fields) (v : GoVal) (hv : v.isErr = false) :
    (cfg.tsLayout ≠ "" → fget f0 "time" = some v →
      fget (encodeJSONFields cfg ops e f0) "fields.time" = some v ∧
      fget (encodeJSONFields cfg ops e f0) "time"
        = some (GoVal.vstr (ops.fmtTime e.ts cfg.tsLayout))) ∧
    (cfg.level ≠ NoLevel → e.level ≠ NoLevel → fget f0 "level" = some v →
      fget (encodeJSONFields cfg ops e f0) "fields.level" = some v ∧
      fget (encodeJSONFields cfg ops e f0) "level"
        = some (GoVal.vstr (levelStringD e.level))) ∧
    (fget f0 "msg" = some v →
      fget (encodeJSONFields cfg ops e f0) "fields.msg" = some v ∧
      fget (encodeJSONFields cfg ops e f0) "msg"
        = some (GoVal.vstr (if e.format ≠ "" then ops.spf e.format e.args
            else sprint e.args))) := by
  have hconv : ∀ kk, fget f0 kk = some v → fget (convertErrors f0) kk = some v := by
    intro kk hk
    rw [fget_convertErrors, hk]
    cases v with
    | verr s => simp [GoVal.isErr] at hv
    | vstr s => rfl
    | vint n => rfl
    | vfunc t => rfl
  refine ⟨?_, ?_, ?_⟩
  · intro hts hf0
    have h1 := hconv _ hf0
    simp only [encodeJSONFields]
    rw [if_pos hts]
    by_cases hlv : cfg.level ≠ NoLevel ∧ e.level ≠ NoLevel
    · rw [if_pos hlv]
      constructor
      · rw [fget_aliasSet_other _ "msg" "fields.msg" _ "fields.time"
            (by decide) (by decide),
          fget_aliasSet_other _ "level" "fields.level" _ "fields.time"
            (by decide) (by decide),
          fget_aliasSet_ext _ "time" "fields.time" _ (by decide), h1]
      · rw [fget_aliasSet_other _ "msg" "fields.msg" _ "time"
            (by decide) (by decide),
          fget_aliasSet_other _ "level" "fields.level" _ "time"
            (by decide) (by decide),
          fget_aliasSet_key]
    · rw [if_neg hlv]
      constructor
      · rw [fget_aliasSet_other _ "msg" "fields.msg" _ "fields.time"
            (by decide) (by decide),
          fget_aliasSet_ext _ "time" "fields.time" _ (by decide), h1]
      · rw [fget_aliasSet_other _ "msg" "fields.msg" _ "time"
            (by decide) (by decide),
          fget_aliasSet_key]
  · intro hl he hf0
    have h1 := hconv _ hf0
    simp only [encodeJSONFields]
    rw [if_pos (And.intro hl he)]
    by_cases hts : cfg.tsLayout ≠ ""
    · rw [if_pos hts]
      constructor
      · rw [fget_aliasSet_other _ "msg" "fields.msg" _ "fields.level"
            (by decide) (by decide),
          fget_aliasSet_ext _ "level" "fields.level" _ (by decide),
          fget_aliasSet_other _ "time" "fields.time" _ "level"
            (by decide) (by decide),
          h1]
      · rw [fget_aliasSet_other _ "msg" "fields.msg" _ "level"
            (by decide) (by decide),
          fget_aliasSet_key]
    · rw [if_neg hts]
      constructor
      · rw [fget_aliasSet_other _ "msg" "fields.msg" _ "fields.level"
            (by decide) (by decide),
          fget_aliasSet_ext _ "level" "fields.level" _ (by decide),
          h1]
      · rw [fget_aliasSet_other _ "msg" "fields.msg" _ "level"
            (by decide) (by decide),
          fget_aliasSet_key]
  · intro hf0
    have h1 := hconv _ hf0
    simp only [encodeJSONFields]
    by_cases hts : cfg.tsLayout ≠ "" <;>
      by_cases hlv : cfg.level ≠ NoLevel ∧ e.level ≠ NoLevel
    · rw [if_pos hts, if_pos hlv]
      constructor
      · rw [fget_aliasSet_ext _ "msg" "fields.msg" _ (by decide),
          fget_aliasSet_other _ "level" "fields.level" _ "msg"
            (by decide) (by decide),
          fget_aliasSet_other _ "time" "fields.time" _ "msg"
            (by decide) (by decide),
          h1]
      · rw [fget_aliasSet_key]
    · rw [if_pos hts, if_neg hlv]
      constructor
      · rw [fget_aliasSet_ext _ "msg" "fields.msg" _ (by decide),
          fget_aliasSet_other _ "time" "fields.time" _ "msg"
            (by decide) (by decide),
          h1]
      · rw [fget_aliasSet_key]
    · rw [if_neg hts, if_pos hlv]
      constructor
      · rw [fget_aliasSet_ext _ "msg" "fields.msg" _ (by decide),
          fget_aliasSet_other _ "level" "fields.level" _ "msg"
            (by decide) (by decide),
          h1]
      · rw [fget_aliasSet_key]
    · rw [if_neg hts, if_neg hlv]
      constructor
      · rw [fget_aliasSet_ext _ "msg" "fields.msg" _ (by decide), h1]
      · rw [fget_aliasSet_key]

/-- Witness for C5: the specification's scenario — a leveled Info call
under the JSON encoder with fields `\x7b"level": "custom"\x7d` yields
`level = "info"` and `fields.level = "custom"`. -/
theorem writeJSON_reserved_alias_witness :
    fget (encodeJSONFields (NewJSONCfg 6 "") opsA
        { ts := 0, level := 5, format := "", args := [GoVal.vstr "hello"],
          fields := some 0, ln := false }
        [("level", GoVal.vstr "custom")]) "level"
      = some (GoVal.vstr "info") ∧
    fget (encodeJSONFields (NewJSONCfg 6 "") opsA
        { ts := 0, level := 5, format := "", args := [GoVal.vstr "hello"],
          fields := some 0, ln := false }
        [("level", GoVal.vstr "custom")]) "fields.level"
      = some (GoVal.vstr "custom") := by
  have h := (writeJSON_reserved_alias (NewJSONCfg 6 "") opsA
      { ts := 0, level := 5, format := "", args := [GoVal.vstr "hello"],
        fields := some 0, ln := false }
      [("level", GoVal.vstr "custom")] (GoVal.vstr "custom") rfl).2.1
      (by decide) (by decide) (by decide)
  exact ⟨h.2.trans (by decide), h.1⟩

/-- C7: when an entry's (mutated) field map fails JSON marshalling, the
consumer writes nothing to the sink for it, emits one diagnostic on the
fallback channel, never retries, and simply continues with the remaining
entries: the outputs of the rest are produced unchanged after the failed
one, which contributes no sink write.  Producers only ever enqueue; no
encode result flows back to them, so the failure cannot propagate. -/
theorem writeJSON_failure_drops (cfg : Config) (ops : FmtOps) (h : List Fields)
    (e : Entry) (rest : List Entry) (hj : cfg.json = true)
    (hm : marshal (encodeJSONFields cfg ops e (deref h e.fields)) = none) :
    (writeEntry cfg ops h e).2.1 = none ∧
    (writeEntry cfg ops h e).2.2 = some jsonErrMsg ∧
    (processAll cfg ops h (e :: rest)).2.1
      = (processAll cfg ops (writeEntry cfg ops h e).1 rest).2.1 ∧
    (processAll cfg ops h (e :: rest)).2.2
      = jsonErrMsg :: (processAll cfg ops (writeEntry cfg ops h e).1 rest).2.2 := by
  have hwe : (writeEntry cfg ops h e).2.1 = none ∧
      (writeEntry cfg ops h e).2.2 = some jsonErrMsg := by
    unfold writeEntry writeJSONStep
    rw [hj]
    simp only [if_true]
    rw [hm]
    exact ⟨rfl, rfl⟩
  refine ⟨hwe.1, hwe.2, ?_, ?_⟩
  · rw [processAll_cons, hwe.1]
    rfl
  · rw [processAll_cons, hwe.2]
    rfl

/-- Witness for C7: a JSON engine whose entry carries an unencodable
(function-valued) field drops that entry with a diagnostic, while the
following plain entry is still encoded and written. -/
theorem writeJSON_failure_drops_witness :
    (processAll (NewJSONCfg 0 " ") opsA [[("f", GoVal.vfunc 0)]]
        [{ ts := 0, level := 0, format := "", args := [GoVal.vstr "m"],
           fields := some 0, ln := false },
         { ts := 1, level := 0, format := "", args := [GoVal.vstr "ok"],
           fields := none, ln := false }]).2.1
      = ["\x7b\"msg\":\"ok\"\x7d\n"] ∧
    (processAll (NewJSONCfg 0 " ") opsA [[("f", GoVal.vfunc 0)]]
        [{ ts := 0, level := 0, format := "", args := [GoVal.vstr "m"],
           fields := some 0, ln := false },
         { ts := 1, level := 0, format := "", args := [GoVal.vstr "ok"],
           fields := none, ln := false }]).2.2
      = [jsonErrMsg] := by
  have h := writeJSON_failure_drops (NewJSONCfg 0 " ") opsA
      [[("f", GoVal.vfunc 0)]]
      { ts := 0, level := 0, format := "", args := [GoVal.vstr "m"],
        fields := some 0, ln := false }
      [{ ts := 1, level := 0, format := "", args := [GoVal.vstr "ok"],
         fields := none, ln := false }] rfl (by decide)
  exact ⟨h.2.2.1.trans (by decide), h.2.2.2.trans (by decide)⟩

theorem logableAt_panic (cfgLevel : Int) (h : 0 ≤ cfgLevel) :
    LogableAt cfgLevel PanicLevel = true := by
  unfold LogableAt PanicLevel NoLevel
  split_ifs with hc
  · omega
  · rfl

/-- C8 (amended): each panic-family call logs one entry at `PanicLevel`
(always admitted, the threshold being clamped non-negative), drains the
whole queue — its own entry included — synchronously before returning,
then panics; the payload is `fmt.Sprint(args)` for `Panic` and `Panicln`
and `fmt.Sprintf(format, args)` for `Panicf`.  For `Panic` and `Panicf`
that payload equals the entry's rendered message; `Panicln`'s logged
message is the `Sprintln` rendering, which can differ from the payload
(see the counterexample). -/
theorem panic_family_spec (cfg : Config) (ops : FmtOps) (h : List Fields)
    (q : List Entry) (r : Option Nat) (ts : Int) (v : List GoVal)
    (fstr : String) (hlev : 0 ≤ cfg.level) (hf : fstr ≠ "") :
    (panicCall cfg ops h q r ts v
        = (processAll cfg ops h (q ++ [mkEnt ts PanicLevel "" v r false]),
          sprint v) ∧
      renderTextMsg ops (mkEnt ts PanicLevel "" v r false) = sprint v) ∧
    (paniclnCall cfg ops h q r ts v
        = (processAll cfg ops h (q ++ [mkEnt ts PanicLevel "" v r true]),
          sprint v)) ∧
    (panicfCall cfg ops h q r ts fstr v
        = (processAll cfg ops h (q ++ [mkEnt ts PanicLevel fstr v r false]),
          ops.spf fstr v) ∧
      renderTextMsg ops (mkEnt ts PanicLevel fstr v r false)
        = ops.spf fstr v) := by
  have hadm := logableAt_panic cfg.level hlev
  unfold panicCall paniclnCall panicfCall logStep loglnStep logfStep
    renderTextMsg mkEnt
  simp [hadm, hf]

/-- Witness for C8 (amended): `Panic("boom")` on a Debug-level text
engine drains its own entry to the sink and panics with the rendered
message. -/
theorem panic_family_spec_witness :
    panicCall (NewTextCfg 6 " " "") opsA [] [] none 0 [GoVal.vstr "boom"]
      = (processAll (NewTextCfg 6 " " "") opsA []
          [mkEnt 0 PanicLevel "" [GoVal.vstr "boom"] none false],
        sprint [GoVal.vstr "boom"]) :=
  ((panic_family_spec (NewTextCfg 6 " " "") opsA [] [] none 0
      [GoVal.vstr "boom"] "x" (by decide) (by decide)).1).1

/-- C8 counterexample: `Panicln("a", "b")` on a Debug-level text engine
logs the line `" PANIC a b\n"` — rendered message `"a b"` — but panics
with payload `"ab"` (`fmt.Sprint` inserts no space between string
operands), so the panic payload is NOT the rendered message of the
call. -/
theorem panicln_payload_cex :
    (paniclnCall (NewTextCfg 6 " " "") opsA [] [] none 0
        [GoVal.vstr "a", GoVal.vstr "b"]).2 = "ab" ∧
    (paniclnCall (NewTextCfg 6 " " "") opsA [] [] none 0
        [GoVal.vstr "a", GoVal.vstr "b"]).1.2.1 = [" PANIC a b\n"] ∧
    renderTextMsg opsA
        (mkEnt 0 PanicLevel "" [GoVal.vstr "a", GoVal.vstr "b"] none true)
      = "a b" ∧
    (paniclnCall (NewTextCfg 6 " " "") opsA [] [] none 0
        [GoVal.vstr "a", GoVal.vstr "b"]).2
      ≠ renderTextMsg opsA
        (mkEnt 0 PanicLevel "" [GoVal.vstr "a", GoVal.vstr "b"] none true) := by
  refine ⟨by decide, by decide, by decide, by decide⟩

/-- C2 (exhibiting the code's divergence from the claim): a scoped JSON
logger holds the map `\x7b"a": "x"\x7d` at heap slot 0 and enqueues
`Info("m")`; the entry carries the map BY REFERENCE, and `writeJSON`
mutates that shared map in place while encoding — afterwards the scoped
logger's observed field set has changed: it now also holds the reserved
keys (`msg` maps to the already-logged message `"m"`), which every
subsequent entry of the same scoped logger will carry. -/
theorem writeJSON_mutates_scoped_fields :
    deref (writeJSONStep (NewJSONCfg 6 "") opsA [[("a", GoVal.vstr "x")]]
        (mkEnt 0 InfoLevel "" [GoVal.vstr "m"] (some 0) false)).1 (some 0)
      ≠ deref [[("a", GoVal.vstr "x")]] (some 0) ∧
    fget (deref (writeJSONStep (NewJSONCfg 6 "") opsA [[("a", GoVal.vstr "x")]]
        (mkEnt 0 InfoLevel "" [GoVal.vstr "m"] (some 0) false)).1 (some 0)) "msg"
      = some (GoVal.vstr "m") ∧
    fget (deref [[("a", GoVal.vstr "x")]] (some 0)) "msg" = none := by
  refine ⟨by decide, by decide, by decide⟩

/-- C3 (amended): for every run of the engine from construction, once
`done` holds — the exact point at which `Close()` returns — the queue is
empty and the sink holds precisely the encoder outputs of ALL enqueued
entries, processed exactly once each, in FIFO enqueue order (no loss, no
duplication); each entry contributes its one sink write except a JSON
entry whose field map failed to marshal, which contributes a diagnostic
instead (see the counterexample for the original, unqualified claim). -/
theorem close_drains_all (cfg : Config) (ops : FmtOps) (h0 : List Fields)
    (s : EngState) (hr : EngReaches ops (initState cfg h0) s)
    (hd : s.done = true) :
    s.queue = [] ∧
    s.sink = (processAll cfg ops h0 s.enqueued).2.1 ∧
    processAll cfg ops h0 s.enqueued = (s.heap, s.sink, s.diag) := by
  obtain ⟨hcfg, ⟨consumed, hsplit, hproc⟩, hdone⟩ := engInv_reaches cfg ops h0 s hr
  obtain ⟨hcl, hq⟩ := hdone hd
  rw [hq, List.append_nil] at hsplit
  refine ⟨hq, ?_, ?_⟩
  · rw [hsplit, hproc]
  · rw [hsplit, hproc]

/-- Witness for C3 (amended): a concrete run — enqueue one text entry,
close, consume, finish — reaches `done` with the entry's line in the
sink. -/
theorem close_drains_all_witness :
    ({ cfg := NewTextCfg 0 " " "", queue := [], heap := [],
       sink := [" hi\n"], diag := [], closed := true, done := true,
       enqueued := [mkEnt 0 0 "" [GoVal.vstr "hi"] none false] } : EngState).queue
        = [] ∧
    ({ cfg := NewTextCfg 0 " " "", queue := [], heap := [],
       sink := [" hi\n"], diag := [], closed := true, done := true,
       enqueued := [mkEnt 0 0 "" [GoVal.vstr "hi"] none false] } : EngState).sink
      = (processAll (NewTextCfg 0 " " "") opsA []
          ({ cfg := NewTextCfg 0 " " "", queue := [], heap := [],
             sink := [" hi\n"], diag := [], closed := true, done := true,
             enqueued := [mkEnt 0 0 "" [GoVal.vstr "hi"] none false] }
            : EngState).enqueued).2.1 ∧
    processAll (NewTextCfg 0 " " "") opsA []
        ({ cfg := NewTextCfg 0 " " "", queue := [], heap := [],
           sink := [" hi\n"], diag := [], closed := true, done := true,
           enqueued := [mkEnt 0 0 "" [GoVal.vstr "hi"] none false] }
          : EngState).enqueued
      = (({ cfg := NewTextCfg 0 " " "", queue := [], heap := [],
            sink := [" hi\n"], diag := [], closed := true, done := true,
            enqueued := [mkEnt 0 0 "" [GoVal.vstr "hi"] none false] }
           : EngState).heap,
         ({ cfg := NewTextCfg 0 " " "", queue := [], heap := [],
            sink := [" hi\n"], diag := [], closed := true, done := true,
            enqueued := [mkEnt 0 0 "" [GoVal.vstr "hi"] none false] }
           : EngState).sink,
         ({ cfg := NewTextCfg 0 " " "", queue := [], heap := [],
            sink := [" hi\n"], diag := [], closed := true, done := true,
            enqueued := [mkEnt 0 0 "" [GoVal.vstr "hi"] none false] }
           : EngState).diag) := by
  refine close_drains_all (NewTextCfg 0 " " "") opsA [] _ ?_ (by decide)
  refine Relation.ReflTransGen.head
    (EngStep.enq _ _ (mkEnt 0 0 "" [GoVal.vstr "hi"] none false) rfl rfl) ?_
  refine Relation.ReflTransGen.head (EngStep.closeChan _ _ rfl rfl) ?_
  refine Relation.ReflTransGen.head
    (EngStep.consume _ _ (mkEnt 0 0 "" [GoVal.vstr "hi"] none false) [] rfl rfl) ?_
  exact Relation.ReflTransGen.single (EngStep.finish _ _ rfl rfl (by decide))

/-- C3 counterexample (to the claim as stated): a JSON engine enqueues
one entry (before close) whose field map holds an unencodable value; the
run reaches `done` — `Close()` has returned — yet the sink is empty: the
enqueued entry was never written, only a diagnostic was emitted. -/
theorem close_drains_cex :
    EngReaches opsA (initState (NewJSONCfg 0 " ") [[("f", GoVal.vfunc 0)]])
      { cfg := NewJSONCfg 0 " ", queue := [],
        heap := [[("f", GoVal.vfunc 0), ("msg", GoVal.vstr "m")]],
        sink := [], diag := [jsonErrMsg], closed := true, done := true,
        enqueued := [mkEnt 0 0 "" [GoVal.vstr "m"] (some 0) false] } ∧
    ({ cfg := NewJSONCfg 0 " ", queue := [],
       heap := [[("f", GoVal.vfunc 0), ("msg", GoVal.vstr "m")]],
       sink := [], diag := [jsonErrMsg], closed := true, done := true,
       enqueued := [mkEnt 0 0 "" [GoVal.vstr "m"] (some 0) false] }
      : EngState).done = true ∧
    ({ cfg := NewJSONCfg 0 " ", queue := [],
       heap := [[("f", GoVal.vfunc 0), ("msg", GoVal.vstr "m")]],
       sink := [], diag := [jsonErrMsg], closed := true, done := true,
       enqueued := [mkEnt 0 0 "" [GoVal.vstr "m"] (some 0) false] }
      : EngState).enqueued
      = [mkEnt 0 0 "" [GoVal.vstr "m"] (some 0) false] ∧
    ({ cfg := NewJSONCfg 0 " ", queue := [],
       heap := [[("f", GoVal.vfunc 0), ("msg", GoVal.vstr "m")]],
       sink := [], diag := [jsonErrMsg], closed := true, done := true,
       enqueued := [mkEnt 0 0 "" [GoVal.vstr "m"] (some 0) false] }
      : EngState).sink = [] := by
  refine ⟨?_, rfl, rfl, rfl⟩
  refine Relation.ReflTransGen.head
    (EngStep.enq _ _ (mkEnt 0 0 "" [GoVal.vstr "m"] (some 0) false) rfl rfl) ?_
  refine Relation.ReflTransGen.head (EngStep.closeChan _ _ rfl rfl) ?_
  refine Relation.ReflTransGen.head
    (EngStep.consume _ _ (mkEnt 0 0 "" [GoVal.vstr "m"] (some 0) false) [] rfl rfl) ?_
  exact Relation.ReflTransGen.single (EngStep.finish _ _ rfl rfl (by decide))

end Alog
